import Mathlib

/-!
Verification of the core engines of the aurora-robot-tools repository.

Two components are embedded from the source:

* the press assignment engine (`assign_cells_to_press.py`), which assigns
  cells waiting on the rack to hydraulic presses, and
* the electrode capacity-balancing engine (`capacity_balance.py`), which
  matches anodes with cathodes (and optionally target-ratio rows) per batch
  and assigns dense cell numbers to accepted pairings.

Machine floats carrying NaN are modelled as `Option ℚ` (`none` = NaN);
comparisons against `none` are `false`, mirroring IEEE/NumPy comparison
semantics, and arithmetic propagates `none`.  Database integer columns are
modelled as `ℤ`.  Rows of a pandas dataframe are lists of structures; the
row at list index `i` corresponds to rack position `i + 1`, exactly as the
source derives rack positions via `np.where(...)[0] + 1`.
-/

/-! ### Press assignment: data model (`Cell_Assembly_Table`, `Press_Table`) -/

/-- One row of `Cell_Assembly_Table`, restricted to the columns the press
assignment script reads or writes.  The rack position is the row's list
index plus one. -/
structure CellRow where
  cellNumber : ℤ
  lastCompletedStep : ℤ
  errorCode : ℤ
  currentPressNumber : ℤ
  electrolytePos : ℤ
deriving Repr, DecidableEq

/-- One row of `Press_Table`.  The script addresses rows positionally
(`df_press.loc[press - 1]`); the table is assumed in press order. -/
structure PressRow where
  pressNumber : ℤ
  currentCellLoaded : ℤ
  errorCode : ℤ
deriving Repr, DecidableEq

/-- `RETURN_STEP = 140`: step number of a returned cell in the robot recipe. -/
def RETURN_STEP : ℤ := 140

/-- The fixed `PRESS_TO_RACK` dictionary of the script: press number to
rack-position class.  (The loop only looks up presses 1..6; the `0` default
branch is unreachable there, mirroring that the Python dict has exactly the
keys 1..6.) -/
def PRESS_TO_RACK (p : ℤ) : ℤ :=
  if p = 1 then 1
  else if p = 2 then 4
  else if p = 3 then 2
  else if p = 4 then 5
  else if p = 5 then 3
  else if p = 6 then 6
  else 0

/-- Rack-position class of a rack position: `(rack - 1) % 6 + 1`, as in
`(available_rack_pos - 1) % 6 + 1`. -/
def rackClass (rack : ℕ) : ℤ := ((rack : ℤ) - 1) % 6 + 1

/-- `available_rack_pos` / `available_cell_numbers` / `available_electrolytes`:
rows with `Cell Number > 0`, `Last Completed Step < RETURN_STEP`,
`Error Code == 0` and `Current Press Number == 0`, as
`(rack position, cell number, electrolyte position)` triples in row order.
The accumulator `k` is the number of rows already consumed, so the head row
has rack position `k + 1`. -/
def availableAux : List CellRow → ℕ → List (ℕ × ℤ × ℤ)
  | [], _ => []
  | r :: rest, k =>
    if 0 < r.cellNumber ∧ r.lastCompletedStep < RETURN_STEP ∧
        r.errorCode = 0 ∧ r.currentPressNumber = 0 then
      (k + 1, r.cellNumber, r.electrolytePos) :: availableAux rest (k + 1)
    else
      availableAux rest (k + 1)

def availableInit (cells : List CellRow) : List (ℕ × ℤ × ℤ) :=
  availableAux cells 0

/-- In-place update of one list entry (`df.loc[i, col] = v`); out-of-range
indices leave the list unchanged (all writes in the script hit existing
rows of the six-row press table). -/
def updAt {α : Type} : List α → ℕ → (α → α) → List α
  | [], _, _ => []
  | a :: rest, 0, f => f a :: rest
  | a :: rest, n + 1, f => a :: updAt rest n f

/-- The error-press branch:
`df.loc[available_rack_pos[error_mask] - 1, "Error Code"] = 301`, where
`error_mask` selects the still-available rack positions whose class is the
errored press's class.  `k` is the number of rows already passed, so the
head row has rack position `k + 1`.  (Writing to an empty selection is a
no-op, so the `size > 0` guard in the source only affects its print.) -/
def markErrorsAux (avail : List (ℕ × ℤ × ℤ)) (press : ℤ) : List CellRow → ℕ → List CellRow
  | [], _ => []
  | r :: rest, k =>
    (if avail.any (fun t => t.1 == k + 1 && rackClass t.1 == PRESS_TO_RACK press) then
      { r with errorCode := 301 }
    else r) :: markErrorsAux avail press rest (k + 1)

/-- `np.delete` at `np.where(available_cell_numbers == loaded_cell)[0][0]`:
remove the first available entry carrying the loaded cell number. -/
def eraseFirstCell : List (ℕ × ℤ × ℤ) → ℤ → List (ℕ × ℤ × ℤ)
  | [], _ => []
  | t :: rest, c => if t.2.1 = c then rest else t :: eraseFirstCell rest c

/-- The evolving state of one invocation of the press-assignment loop:
the two tables, the remaining available cells, the `electrolytes_used`
list, and the `(press, cell, rack)` load plan
(`presses_to_load` / `cells_to_load` / `rack_to_load`). -/
structure AssignState where
  cells : List CellRow
  presses : List PressRow
  avail : List (ℕ × ℤ × ℤ)
  electrolytesUsed : List ℤ
  plan : List (ℤ × ℤ × ℕ)
deriving Repr, DecidableEq

/-- One iteration of `for press in range(1, 7)` (after the emptiness break,
which the driver checks).  Branches, in source order:

1. press has an error and `link_rack_pos_to_press`: give error code 301 to
   the available cells of that press's rack class, load nothing;
2. press already has a cell loaded (`press in presses_already_loaded`):
   `ValueError` unless exactly one cell row references the press; if that
   row is healthy, record its electrolyte position as used;
3. otherwise filter the available cells by rack class (when linking) and by
   the electrolyte batching constraint (when the limit is active), and load
   the first candidate.  Note the source appends `loaded_cell` — the cell
   number, not its electrolyte position — to `electrolytes_used`. -/
def press_step (link : Bool) (limit : ℕ) (pwe pal : List ℤ) (press : ℤ) (st : AssignState) :
    Except String AssignState :=
  if press ∈ pwe ∧ link = true then
    .ok { st with cells := markErrorsAux st.avail press st.cells 0 }
  else if press ∈ pal then
    match st.cells.filter (fun r => r.currentPressNumber = press) with
    | [r] =>
      if r.errorCode = 0 then
        .ok { st with electrolytesUsed := st.electrolytesUsed ++ [r.electrolytePos] }
      else
        .ok st
    | _ => .error "Press has a cell already loaded - check Current Press Number column"
  else
    let limitActive : Bool := decide (0 < limit) && decide (limit ≤ st.electrolytesUsed.dedup.length)
    let cands := st.avail.filter (fun t =>
      (!link || rackClass t.1 == PRESS_TO_RACK press) &&
      (!limitActive || decide (t.2.2 ∈ st.electrolytesUsed)))
    match cands with
    | [] => .ok st
    | (r, c, _e) :: _ =>
      .ok { cells := st.cells.map (fun row =>
              if row.cellNumber = c then { row with currentPressNumber := press } else row),
            presses := updAt st.presses (press - 1).toNat
              (fun pr => { pr with currentCellLoaded := c }),
            avail := eraseFirstCell st.avail c,
            electrolytesUsed := st.electrolytesUsed ++ (if 0 < limit then [c] else []),
            plan := st.plan ++ [(press, c, r)] }

/-- The press loop, with the hard `break` when no available cells remain. -/
def run_presses (link : Bool) (limit : ℕ) (pwe pal : List ℤ) :
    List ℤ → AssignState → Except String AssignState
  | [], st => .ok st
  | p :: rest, st =>
    if st.avail.isEmpty then .ok st
    else
      match press_step link limit pwe pal p st with
      | .error e => .error e
      | .ok st' => run_presses link limit pwe pal rest st'

/-- The whole press-assignment invocation.  `presses_with_errors` and
`presses_already_loaded` are computed once from the initial snapshots, as
in the source.  The returned state carries the updated tables and the
`(press, cell, rack)` load plan; committing the write (and the interactive
confirmation when cells are already mid-assembly) is left to the caller,
as it is UI glue around the final `to_sql` calls. -/
def assign_cells_to_press (cells : List CellRow) (presses : List PressRow)
    (link : Bool) (limit : ℕ) : Except String AssignState :=
  let pwe := (presses.filter (fun p => p.errorCode ≠ 0)).map (·.pressNumber)
  let pal := (cells.filter (fun r => 0 < r.currentPressNumber)).map (·.currentPressNumber)
  run_presses link limit pwe pal [1, 2, 3, 4, 5, 6]
    { cells := cells, presses := presses, avail := availableInit cells,
      electrolytesUsed := [], plan := [] }

/-- Load plan of a finished run (empty on an aborted run). -/
def planOf (r : Except String AssignState) : List (ℤ × ℤ × ℕ) :=
  match r with
  | .ok st => st.plan
  | .error _ => []

/-- Cell table of a finished run (empty on an aborted run). -/
def cellsOf (r : Except String AssignState) : List CellRow :=
  match r with
  | .ok st => st.cells
  | .error _ => []

/-- `True` iff the run finished without raising. -/
def Except.isOkay {ε α : Type} : Except ε α → Bool
  | .ok _ => true
  | .error _ => false

/-- Pairwise distinctness of the positive entries of an integer column:
no two rows share a positive value.  Used as the data-model invariant that
cell numbers (respectively current-press references) are unique. -/
def noDupPos : List ℤ → Bool
  | [] => true
  | c :: rest => (decide (c ≤ 0) || rest.all (fun d => d ≠ c)) && noDupPos rest

/-! ### Concrete press-assignment inputs used by the claims -/

/-- Six healthy, empty presses. -/
def healthyPresses : List PressRow :=
  [⟨1, 0, 0⟩, ⟨2, 0, 0⟩, ⟨3, 0, 0⟩, ⟨4, 0, 0⟩, ⟨5, 0, 0⟩, ⟨6, 0, 0⟩]

/-- Electrolyte-limit input: two eligible cells, cell number 5 with
electrolyte position 2 at rack 1, and cell number 9 with electrolyte
position 5 at rack 2. -/
def c1cells : List CellRow :=
  [⟨5, 0, 0, 0, 2⟩, ⟨9, 0, 0, 0, 5⟩]

/-- Rack-affinity scenario: 13 rack slots, eligible cells (numbers
11,12,13,14,15) at rack positions 1, 2, 7, 8, 13, all other slots empty. -/
def c4cells : List CellRow :=
  [⟨11, 0, 0, 0, 1⟩, ⟨12, 0, 0, 0, 1⟩, ⟨0, 0, 0, 0, 0⟩, ⟨0, 0, 0, 0, 0⟩,
   ⟨0, 0, 0, 0, 0⟩, ⟨0, 0, 0, 0, 0⟩, ⟨13, 0, 0, 0, 1⟩, ⟨14, 0, 0, 0, 1⟩,
   ⟨0, 0, 0, 0, 0⟩, ⟨0, 0, 0, 0, 0⟩, ⟨0, 0, 0, 0, 0⟩, ⟨0, 0, 0, 0, 0⟩,
   ⟨15, 0, 0, 0, 1⟩]

/-- Presses 1..3 available (healthy and empty), presses 4..6 unavailable
(nonzero error code). -/
def c4presses : List PressRow :=
  [⟨1, 0, 0⟩, ⟨2, 0, 0⟩, ⟨3, 0, 0⟩, ⟨4, 0, 1⟩, ⟨5, 0, 1⟩, ⟨6, 0, 1⟩]

def c4run : Except String AssignState := assign_cells_to_press c4cells c4presses true 0

/-- One eligible cell, number 7. -/
def c5cells : List CellRow := [⟨7, 0, 0, 0, 1⟩]

/-- Press 1's loaded-cell field points at cell number 42, which is absent
from the cell table; no cell row references any press. -/
def c5presses : List PressRow :=
  [⟨1, 42, 0⟩, ⟨2, 0, 0⟩, ⟨3, 0, 0⟩, ⟨4, 0, 0⟩, ⟨5, 0, 0⟩, ⟨6, 0, 0⟩]

/-- A healthy loaded binding: the cell at rack 1 (number 3) is loaded on
press 2, the cell at rack 2 (number 4) is waiting. -/
def c7cells : List CellRow := [⟨3, 10, 0, 2, 1⟩, ⟨4, 0, 0, 0, 1⟩]

def c7presses : List PressRow :=
  [⟨1, 0, 0⟩, ⟨2, 3, 0⟩, ⟨3, 0, 0⟩, ⟨4, 0, 0⟩, ⟨5, 0, 0⟩, ⟨6, 0, 0⟩]

/-! ### Capacity balancing: Option-valued float arithmetic

Measured columns can hold NaN (missing weights, empty rack slots), modelled
as `none`.  Arithmetic propagates `none`; comparisons against `none` are
`false`, as for IEEE NaN.  `optDiv` returns `none` for a zero denominator:
a float would give `inf` (or NaN for `0/0`), and both are rejected by every
finite bound check exactly as `none` is. -/

def optSub : Option ℚ → Option ℚ → Option ℚ
  | some a, some b => some (a - b)
  | _, _ => none

def optMul : Option ℚ → Option ℚ → Option ℚ
  | some a, some b => some (a * b)
  | _, _ => none

def optDiv : Option ℚ → Option ℚ → Option ℚ
  | some a, some b => if b = 0 then none else some (a / b)
  | _, _ => none

def optAbsSub : Option ℚ → Option ℚ → Option ℚ
  | some a, some b => some |a - b|
  | _, _ => none

def optLT : Option ℚ → Option ℚ → Bool
  | some a, some b => decide (a < b)
  | _, _ => false

def optLE : Option ℚ → Option ℚ → Bool
  | some a, some b => decide (a ≤ b)
  | _, _ => false

/-! ### Capacity balancing: data model (`Cell_Assembly_Table`) -/

/-- One row of `Cell_Assembly_Table`, restricted to the columns the
capacity-balance script reads or writes.  The `Anode`-named columns are
the five fields starting with `anode`, the `Cathode`-named columns the
five starting with `cathode`, matching the substring selection in
`rearrange_electrode_columns`. -/
structure CellAsm where
  batchNumber : ℤ
  lastCompletedStep : ℤ
  errorCode : ℤ
  cellNumber : ℕ
  anodeWeight : Option ℚ
  anodeCC : Option ℚ
  anodeFrac : Option ℚ
  anodeSpecCap : Option ℚ
  anodeCap : Option ℚ
  cathodeWeight : Option ℚ
  cathodeCC : Option ℚ
  cathodeFrac : Option ℚ
  cathodeSpecCap : Option ℚ
  cathodeCap : Option ℚ
  target_np : Option ℚ
  min_np : Option ℚ
  max_np : Option ℚ
  actual_np : Option ℚ
deriving Repr, DecidableEq, Inhabited

/-- The capacity formula of `calculate_capacity`:
`1e-3 * (weight - current_collector_weight) * active_material_fraction *
nominal_specific_capacity`, with NaN propagation. -/
def calcCap (w cc f sc : Option ℚ) : Option ℚ :=
  optMul (optMul (optMul (some (1 / 1000)) (optSub w cc)) f) sc

/-- `calculate_capacity`: writes the anode and cathode capacity columns
in place, touching nothing else. -/
def calculate_capacity (df : List CellAsm) : List CellAsm :=
  df.map (fun r =>
    { r with
      anodeCap := calcCap r.anodeWeight r.anodeCC r.anodeFrac r.anodeSpecCap,
      cathodeCap := calcCap r.cathodeWeight r.cathodeCC r.cathodeFrac r.cathodeSpecCap })

/-- `df["Actual N:P Ratio"] = df["Anode Capacity (mAh)"] / df["Cathode Capacity (mAh)"]`. -/
def addActual (r : CellAsm) : CellAsm :=
  { r with actual_np := optDiv r.anodeCap r.cathodeCap }

/-- `cell_meets_criteria`: actual ratio within `[min, max]`; NaN anywhere
compares `false` and the row is not accepted. -/
def acceptCheck (r : CellAsm) : Bool :=
  optLE r.min_np r.actual_np && optLE r.actual_np r.max_np

/-- The no-check acceptance: any row with both capacities non-null. -/
def acceptNoCheck (r : CellAsm) : Bool :=
  r.anodeCap.isSome && r.cathodeCap.isSome

/-- The cell-number rewrite of `update_cell_numbers`: the column is zeroed,
then the accepted rows receive `1, 2, 3, ...` in row order
(`for cell_number, cell_index in enumerate(accepted_cell_indices)`).
`k` is the count of accepted rows already numbered. -/
def numberRows (accept : CellAsm → Bool) : List CellAsm → ℕ → List CellAsm
  | [], _ => []
  | r :: rest, k =>
    if accept r then
      { r with cellNumber := k + 1 } :: numberRows accept rest (k + 1)
    else
      { r with cellNumber := 0 } :: numberRows accept rest k

/-- `update_cell_numbers(df, check_NP_ratio)`: with checking, recompute the
actual ratio column and accept rows within their ratio band; without,
accept rows with both capacities present.  Accepted rows are numbered
densely in row order, all other rows get cell number 0. -/
def update_cell_numbers (df : List CellAsm) (check : Bool) : List CellAsm :=
  if check then numberRows acceptCheck (df.map addActual) 0
  else numberRows acceptNoCheck df 0

/-! ### Capacity balancing: the 2D cost-matrix assignment -/

/-- Column accessors on a batch (list index = batch-local index). -/
def capA (dfb : List CellAsm) (i : ℕ) : Option ℚ := (dfb.get? i).bind (·.anodeCap)

def capC (dfb : List CellAsm) (j : ℕ) : Option ℚ := (dfb.get? j).bind (·.cathodeCap)

def colTarget (dfb : List CellAsm) (i : ℕ) : Option ℚ := (dfb.get? i).bind (·.target_np)

def colMin (dfb : List CellAsm) (i : ℕ) : Option ℚ := (dfb.get? i).bind (·.min_np)

def colMax (dfb : List CellAsm) (i : ℕ) : Option ℚ := (dfb.get? i).bind (·.max_np)

/-- `actual_ratio[i, j] = anode_capacity[i] / cathode_capacity[j]`. -/
def ratioAt (dfb : List CellAsm) (i j : ℕ) : Option ℚ := optDiv (capA dfb i) (capC dfb j)

/-- The row-wise clamping of out-of-band ratios, in source order: first
entries above `max[i]` become `max[i] * rejection_cost_factor`, then
entries below `min[i]` (testing the already-clamped values) become
`min[i] / rejection_cost_factor`. -/
def clampAt (dfb : List CellAsm) (rcf : ℚ) (i j : ℕ) : Option ℚ :=
  let r0 := ratioAt dfb i j
  let r1 := if optLT (colMax dfb i) r0 then optMul (colMax dfb i) (some rcf) else r0
  if optLT r1 (colMin dfb i) then optDiv (colMin dfb i) (some rcf) else r1

/-- One entry of the 2D cost matrix: `|clamped ratio - target[i]|`; NaN
entries become `999.99999999` on the diagonal (so unassigned electrodes
prefer to stay in place) and `1000` elsewhere. -/
def cost2dEntry (dfb : List CellAsm) (rcf : ℚ) (i j : ℕ) : ℚ :=
  match optAbsSub (clampAt dfb rcf i j) (colTarget dfb i) with
  | some v => v
  | none => if i = j then 99999999999 / 100000000 else 1000

/-- Total cost of assigning cathode `p[i]` to anode `i`. -/
def permCost (cost : ℕ → ℕ → ℚ) (p : List ℕ) : ℚ :=
  p.enum.foldl (fun s q => s + cost q.1 q.2) 0

/-- Exhaustive minimum-cost column permutation (first minimum wins). -/
def argminPerm (cost : ℕ → ℕ → ℚ) (n : ℕ) : List ℕ :=
  (List.range n).permutations.foldl
    (fun best p => if permCost cost p < permCost cost best then p else best)
    (List.range n)

/-- `cost_matrix_assign`: builds the clamped cost matrix and solves the
assignment.  `scipy.optimize.linear_sum_assignment` on a square matrix
returns the row indices in ascending order — hence exactly `0..n-1` — and
a minimum-cost column permutation; the solver is modelled by exhaustive
minimisation. -/
def cost_matrix_assign (dfb : List CellAsm) (rcf : ℚ) : List ℕ × List ℕ :=
  (List.range dfb.length, argminPerm (cost2dEntry dfb rcf) dfb.length)

/-! ### Capacity balancing: 3D matching -/

/-- One entry of the 3D cost matrix for the triple `(anode i, cathode j,
ratio row k)`, following the source's sequential in-place updates:
normalise the signed deviation by `(min - target)` when negative and by
`(max - target)` when positive, reject (cost `rejection_cost_factor`) when
the normalised cost exceeds 1, then resolve NaN to `999.999` on the
diagonal and `1000` elsewhere.  The unguarded `min = target` (or
`max = target`) normalisation divides by zero; a float gives `±inf`/NaN
there where `optDiv` gives `none` — the theorems below do not depend on
cost values, only on which triples form a matching. -/
def cost3Entry (dfb : List CellAsm) (rcf : ℚ) (t : ℕ × ℕ × ℕ) : ℚ :=
  let c0 := optSub (ratioAt dfb t.1 t.2.1) (colTarget dfb t.2.2)
  let c1 := if optLT c0 (some 0) then
      optDiv c0 (optSub (colMin dfb t.2.2) (colTarget dfb t.2.2)) else c0
  let c2 := if optLT (some 0) c1 then
      optDiv c1 (optSub (colMax dfb t.2.2) (colTarget dfb t.2.2)) else c1
  let c3 := if optLT (some 1) c2 then some rcf else c2
  match c3 with
  | some v => v
  | none => if t.1 = t.2.1 ∧ t.2.1 = t.2.2 then 999999 / 1000 else 1000

/-- `itertools.product(range(n), repeat=3)`, in lexicographic order. -/
def allTriples (n : ℕ) : List (ℕ × ℕ × ℕ) :=
  (List.range n).flatMap (fun i =>
    (List.range n).flatMap (fun j =>
      (List.range n).map (fun k => (i, j, k))))

/-- A triple can be chosen iff none of its three indices is already used
in its respective role. -/
def tripleFresh (chosen : List (ℕ × ℕ × ℕ)) (a : ℕ × ℕ × ℕ) : Bool :=
  chosen.all (fun c => c.1 ≠ a.1) && chosen.all (fun c => c.2.1 ≠ a.2.1) &&
    chosen.all (fun c => c.2.2 ≠ a.2.2)

def greedyStep (chosen : List (ℕ × ℕ × ℕ)) (a : ℕ × ℕ × ℕ) : List (ℕ × ℕ × ℕ) :=
  if tripleFresh chosen a then chosen ++ [a] else chosen

/-- `greedy_npartite_matching`: scan all triples in ascending cost order
(Python's stable sort; ties keep enumeration order) and accept each triple
whose three indices are all unused. -/
def greedy_npartite_matching (cost : ℕ × ℕ × ℕ → ℚ) (n : ℕ) : List (ℕ × ℕ × ℕ) :=
  ((allTriples n).insertionSort (fun a b => cost a ≤ cost b)).foldl greedyStep []

/-- Ordering of matched triples by anode index, used for the final
`ind_sort = np.argsort(anode_ind)` reordering. -/
def anodeLE (a b : ℕ × ℕ × ℕ) : Prop := a.1 ≤ b.1

instance : DecidableRel anodeLE := fun a b => Nat.decLe a.1 b.1

instance : IsTotal (ℕ × ℕ × ℕ) anodeLE := ⟨fun a b => Nat.le_total a.1 b.1⟩

instance : IsTrans (ℕ × ℕ × ℕ) anodeLE := ⟨fun _ _ _ h h' => le_trans h h'⟩

/-- `np.argsort(anode_ind)` applied to all three index arrays: sort the
matched triples by anode index. -/
def sortByAnode (l : List (ℕ × ℕ × ℕ)) : List (ℕ × ℕ × ℕ) := l.insertionSort anodeLE

/-- `cost_matrix_assign_3d`: build the 3D cost matrix and match.  The exact
path hands the matrix to an external CBC integer-program solve with a
30-second budget; that external process is modelled by the parameter
`exactOut`: `some out` is an `Optimal` outcome whose chosen triples `out`
satisfy the ILP constraints (each index used exactly once in each role),
`none` is a timeout/non-optimal status, on which the source raises
`ValueError`.  Both paths finish by sorting so the anode order is
unchanged. -/
def cost_matrix_assign_3d (dfb : List CellAsm) (rcf : ℚ)
    (exactOut : Option (List (ℕ × ℕ × ℕ))) (exact : Bool) :
    Except String (List (ℕ × ℕ × ℕ)) :=
  if exact then
    match exactOut with
    | some out => .ok (sortByAnode out)
    | none => .error "Optimal solution not found"
  else
    .ok (sortByAnode (greedy_npartite_matching (cost3Entry dfb rcf) dfb.length))

def triplesToInds (l : List (ℕ × ℕ × ℕ)) : List ℕ × List ℕ × List ℕ :=
  (l.map (·.1), l.map (·.2.1), l.map (·.2.2))

/-! ### Capacity balancing: mode selection and the per-batch loop -/

/-- `np.argsort` over a float column, NaN placed last (insertion sort is
stable like NumPy's default sort only up to ties, which no theorem below
depends on). -/
def keyLEb (a b : Option ℚ) : Bool :=
  match a, b with
  | some x, some y => decide (x ≤ y)
  | some _, none => true
  | none, some _ => false
  | none, none => true

def argsortOpt (keys : List (Option ℚ)) : List ℕ :=
  (List.range keys.length).insertionSort
    (fun i j => keyLEb (keys.getD i none) (keys.getD j none) = true)

def argsortN (keys : List ℕ) : List ℕ :=
  (List.range keys.length).insertionSort (fun i j => keys.getD i 0 ≤ keys.getD j 0)

def gather (xs : List ℕ) (idxs : List ℕ) : List ℕ := idxs.map (fun i => xs.getD i 0)

/-- Sorting method 2: `cathode_sort[np.argsort(anode_sort)]`, anode order
unchanged. -/
def sort_by_capacity (dfb : List CellAsm) : List ℕ :=
  gather (argsortOpt (dfb.map (·.cathodeCap))) (argsortN (argsortOpt (dfb.map (·.anodeCap))))

/-- `len(column.unique())`. -/
def uniqueCount (l : List (Option ℚ)) : ℕ := l.dedup.length

/-- The auto-mode test of case 6.  The source writes

`len(t.unique()) == 1 & len(mn.unique()) == 1 & len(mx.unique()) == 1`

and Python's `&` binds tighter than `==`, so this is the chained comparison
`nT == (1 & nMin) == (1 & nMax) == 1`, i.e. three conjoined equalities on
bitwise-and values — not the three separate `== 1` tests the comment above
it intends. -/
def autoCond_code (nT nMin nMax : ℕ) : Bool :=
  (nT == Nat.land 1 nMin) && (Nat.land 1 nMin == Nat.land 1 nMax) && (Nat.land 1 nMax == 1)

/-- The test as the spec states it: all three unique-counts equal 1. -/
def autoCond_spec (nT nMin nMax : ℕ) : Bool :=
  (nT == 1) && (nMin == 1) && (nMax == 1)

/-- `sorting_method` values 0..6. -/
inductive SortingMethod
  | m0 | m1 | m2 | m3 | m4 | m5 | m6
deriving Repr, DecidableEq

/-- The `match sorting_method` block of `main`, producing the three index
arrays for one batch.  `exactOut` is the outcome of the external exact-3D
solve (see `cost_matrix_assign_3d`); the `([], [], [])` arms are
unreachable because the non-exact call returns `.ok` by definition. -/
def chooseIndices (mode : SortingMethod) (dfb : List CellAsm)
    (exactOut : Option (List (ℕ × ℕ × ℕ))) : List ℕ × List ℕ × List ℕ :=
  let n := dfb.length
  match mode with
  | .m0 => (List.range n, List.range n, List.range n)
  | .m1 => (List.range n, List.range n, List.range n)
  | .m2 => (List.range n, sort_by_capacity dfb, List.range n)
  | .m3 =>
    let p := cost_matrix_assign dfb 2
    (p.1, p.2, List.range n)
  | .m4 =>
    match cost_matrix_assign_3d dfb 2 exactOut false with
    | .ok t => triplesToInds t
    | .error _ => ([], [], [])
  | .m5 =>
    match cost_matrix_assign_3d dfb 2 exactOut true with
    | .ok t => triplesToInds t
    | .error _ =>
      match cost_matrix_assign_3d dfb 2 exactOut false with
      | .ok t => triplesToInds t
      | .error _ => ([], [], [])
  | .m6 =>
    if autoCond_code (uniqueCount (dfb.map (·.target_np)))
        (uniqueCount (dfb.map (·.min_np))) (uniqueCount (dfb.map (·.max_np))) then
      let p := cost_matrix_assign dfb 2
      (p.1, p.2, List.range n)
    else
      match cost_matrix_assign_3d dfb 2 exactOut true with
      | .ok t => triplesToInds t
      | .error _ =>
        match cost_matrix_assign_3d dfb 2 exactOut false with
        | .ok t => triplesToInds t
        | .error _ => ([], [], [])

/-- `bool(series)`: pandas coerces a boolean Series to a scalar truth value
only when it has exactly one element, otherwise it raises
`ValueError: The truth value of a Series is ambiguous`. -/
def pandasTruth (s : List Bool) : Except String Bool :=
  match s with
  | [b] => .ok b
  | _ => .error "The truth value of a Series is ambiguous"

/-- The batch-eligibility mask exactly as the source computes it.  The
source writes (one parenthesised expression)

`df[BN] == batch_number & df[LCS] == 0 & df[EC] == 0`

and Python's `&` binds tighter than `==`, so it parses as the chained
comparison `A == (bn & LCS) == (0 & EC) == 0`, whose two `and` steps each
coerce a boolean Series to a scalar.  With integer-typed columns (modelled
here) this raises the ambiguous-truth-value error on any table with more
than one row; with a float (NaN-bearing) batch column the bitwise `&`
itself raises a TypeError even earlier.  The short-circuit case yields the
scalar `False` instead of a row mask, also fatal downstream. -/
def batchMaskCode (batchNum : ℤ) (batchCol stepCol errCol : List ℤ) :
    Except String (List Bool) :=
  let x := stepCol.map (fun v => Int.land batchNum v)
  let y := errCol.map (fun v => Int.land 0 v)
  match pandasTruth (List.zipWith (fun a b => decide (a = b)) batchCol x) with
  | .error e => .error e
  | .ok t1 =>
    if t1 then
      match pandasTruth (List.zipWith (fun a b => decide (a = b)) x y) with
      | .error e => .error e
      | .ok t2 =>
        if t2 then .ok (y.map (fun v => decide (v = 0)))
        else .error "mask collapsed to the scalar False"
    else .error "mask collapsed to the scalar False"

/-- Modelled from the spec: the batch-eligibility mask the claim (and the
script's own printed message) describes — batch number matches, last
completed step is 0 and error code is 0, row by row. -/
def batchMaskSpec (batchNum : ℤ) (batchCol stepCol errCol : List ℤ) : List Bool :=
  List.zipWith (fun b (se : ℤ × ℤ) =>
      decide (b = batchNum) && decide (se.1 = 0) && decide (se.2 = 0))
    batchCol (stepCol.zip errCol)

/-- `np.where(mask)[0]`. -/
def maskIndices (mask : List Bool) : List ℕ :=
  (mask.enum.filter (·.2)).map (·.1)

/-- Field-group copies used by `rearrange_electrode_columns`: the
`Anode`-named columns, the `Cathode`-named columns, and the three ratio
columns (target/minimum/maximum — the actual ratio column is written later
by `update_cell_numbers` and is not moved). -/
def anodeFieldsFrom (src dst : CellAsm) : CellAsm :=
  { dst with anodeWeight := src.anodeWeight, anodeCC := src.anodeCC,
             anodeFrac := src.anodeFrac, anodeSpecCap := src.anodeSpecCap,
             anodeCap := src.anodeCap }

def cathodeFieldsFrom (src dst : CellAsm) : CellAsm :=
  { dst with cathodeWeight := src.cathodeWeight, cathodeCC := src.cathodeCC,
             cathodeFrac := src.cathodeFrac, cathodeSpecCap := src.cathodeSpecCap,
             cathodeCap := src.cathodeCap }

def npFieldsFrom (src dst : CellAsm) : CellAsm :=
  { dst with target_np := src.target_np, min_np := src.min_np, max_np := src.max_np }

/-- `rearrange_electrode_columns(df, row_indices, anode_ind, cathode_ind,
ratio_ind)`: for the batch rows `idx`, the row at `idx[t]` receives the
anode columns of row `idx[ai[t]]`, the cathode columns of row `idx[ci[t]]`
and the ratio columns of row `idx[ri[t]]`, all read from an immutable copy;
rows outside `idx` are untouched. -/
def rearrange (df : List CellAsm) (idx : List ℕ) (ai ci ri : List ℕ) : List CellAsm :=
  df.enum.map (fun p =>
    match idx.findIdx? (· == p.1) with
    | none => p.2
    | some t =>
      let aRow := df.getD (idx.getD (ai.getD t 0) 0) p.2
      let cRow := df.getD (idx.getD (ci.getD t 0) 0) p.2
      let rRow := df.getD (idx.getD (ri.getD t 0) 0) p.2
      npFieldsFrom rRow (cathodeFieldsFrom cRow (anodeFieldsFrom aRow p.2)))

/-- The whole electrode-matching run (`main`): compute capacities, then per
batch number compute the eligibility mask, choose the index permutations
for the batch and rearrange the electrode columns, and finally rewrite the
cell numbers (ratio checking off only for sorting method 0).  Batch numbers
are modelled as an integer column, so the `isnan` filter on
`df["Batch Number"].unique()` drops nothing. -/
def run_batches (df0 : List CellAsm) (mode : SortingMethod)
    (exactOut : Option (List (ℕ × ℕ × ℕ))) : Except String (List CellAsm) :=
  let df := calculate_capacity df0
  let bns := (df.map (·.batchNumber)).dedup
  match bns.foldlM (fun (cur : List CellAsm) bn =>
      match batchMaskCode bn (cur.map (·.batchNumber)) (cur.map (·.lastCompletedStep))
          (cur.map (·.errorCode)) with
      | .error e => Except.error e
      | .ok mask =>
        let idx := maskIndices mask
        let dfb := idx.map (fun i => cur.getD i default)
        let inds := chooseIndices mode dfb exactOut
        Except.ok (rearrange cur idx inds.1 inds.2.1 inds.2.2)) df with
  | .error e => .error e
  | .ok final => .ok (update_cell_numbers final (mode != SortingMethod.m0))

/-! ### Spec-side definitions for acceptance and numbering (claim C6) -/

/-- Modelled from the spec: a row is accepted iff its recomputed actual
ratio (anode capacity divided by cathode capacity) is a number and lies in
`[min_ratio, max_ratio]`. -/
def AcceptSpec (r : CellAsm) : Prop :=
  ∃ a c mn mx, r.anodeCap = some a ∧ r.cathodeCap = some c ∧ c ≠ 0 ∧
    r.min_np = some mn ∧ r.max_np = some mx ∧ mn ≤ a / c ∧ a / c ≤ mx

/-- Executable form of `AcceptSpec`. -/
def specAcceptB (r : CellAsm) : Bool :=
  match optDiv r.anodeCap r.cathodeCap, r.min_np, r.max_np with
  | some q, some mn, some mx => decide (mn ≤ q) && decide (q ≤ mx)
  | _, _, _ => false

/-- Modelled from the spec: accepted rows receive `1, 2, 3, ...` densely in
original row order among accepted rows; rejected rows receive 0. -/
def densify : List Bool → ℕ → List ℕ
  | [], _ => []
  | b :: rest, k => if b then (k + 1) :: densify rest (k + 1) else 0 :: densify rest k

def numberingSpec (df : List CellAsm) : List ℕ := densify (df.map specAcceptB) 0

/-! ### Concrete capacity-balance inputs used by the claims -/

/-- A blank assembly row: batch 1, nothing measured. -/
def baseAsm : CellAsm :=
  { batchNumber := 1, lastCompletedStep := 0, errorCode := 0, cellNumber := 0,
    anodeWeight := none, anodeCC := none, anodeFrac := none, anodeSpecCap := none,
    anodeCap := none, cathodeWeight := none, cathodeCC := none, cathodeFrac := none,
    cathodeSpecCap := none, cathodeCap := none, target_np := none, min_np := none,
    max_np := none, actual_np := none }

/-- Auto-mode batch: one distinct target ratio (1), three distinct minimum
ratios (0.9, 0.95, 1), one distinct maximum ratio (1.1). -/
def c2batch : List CellAsm :=
  [{ baseAsm with target_np := some 1, min_np := some (mkRat 9 10), max_np := some (mkRat 11 10) },
   { baseAsm with target_np := some 1, min_np := some (mkRat 19 20), max_np := some (mkRat 11 10) },
   { baseAsm with target_np := some 1, min_np := some 1, max_np := some (mkRat 11 10) },
   { baseAsm with target_np := some 1, min_np := some (mkRat 9 10), max_np := some (mkRat 11 10) }]

/-- Acceptance test rows: ratios 1 (accept), 2 (reject), 1 (accept), and a
row with a missing cathode capacity (reject). -/
def c6df : List CellAsm :=
  [{ baseAsm with anodeCap := some 1, cathodeCap := some 1,
                  min_np := some (mkRat 9 10), max_np := some (mkRat 11 10) },
   { baseAsm with anodeCap := some 2, cathodeCap := some 1,
                  min_np := some (mkRat 9 10), max_np := some (mkRat 11 10) },
   { baseAsm with anodeCap := some 1, cathodeCap := some 1,
                  min_np := some (mkRat 9 10), max_np := some (mkRat 11 10) },
   { baseAsm with anodeCap := some 1, cathodeCap := none,
                  min_np := some (mkRat 9 10), max_np := some (mkRat 11 10) }]

/-- A fully measured row for the capacity-formula witness. -/
def c8row : CellAsm :=
  { baseAsm with anodeWeight := some 100, anodeCC := some 10, anodeFrac := some (mkRat 9 10),
                 anodeSpecCap := some 350, cathodeWeight := some 120, cathodeCC := some 12,
                 cathodeFrac := some (mkRat 19 20), cathodeSpecCap := some 180 }

/-- A two-row single-batch table (a batch of fewer than 4 rows). -/
def c9df : List CellAsm := [baseAsm, baseAsm]

/-- A three-row single-batch table. -/
def c9df3 : List CellAsm := [baseAsm, baseAsm, baseAsm]

/-- A small batch for the anode-identity witness. -/
def c10batch : List CellAsm :=
  [{ baseAsm with anodeCap := some 1, cathodeCap := some 2, target_np := some 1,
                  min_np := some (mkRat 9 10), max_np := some (mkRat 11 10) },
   { baseAsm with anodeCap := some 2, cathodeCap := some 1, target_np := some 1,
                  min_np := some (mkRat 9 10), max_np := some (mkRat 11 10) }]

/-- A triple clashes with a chosen set when one of its indices is already
used in the corresponding role. -/
def hitBy (a : ℕ × ℕ × ℕ) (st : List (ℕ × ℕ × ℕ)) : Prop :=
  (∃ c ∈ st, c.1 = a.1) ∨ (∃ c ∈ st, c.2.1 = a.2.1) ∨ (∃ c ∈ st, c.2.2 = a.2.2)

/-- Modelled from the spec: the capacity formula as the claim writes it,
`(weight_mg − current_collector_weight_mg) × active_material_fraction ×
specific_capacity_mAh_per_g / 1000`, undefined (NaN) when a field is
missing. -/
def capSpec (w cc f sc : Option ℚ) : Option ℚ :=
  match w, cc, f, sc with
  | some w, some cc, some f, some sc => some ((w - cc) * f * sc / 1000)
  | _, _, _, _ => none

/-- Erase the two capacity output fields, for stating that
`calculate_capacity` mutates nothing else. -/
def eraseCaps (r : CellAsm) : CellAsm := { r with anodeCap := none, cathodeCap := none }

/-! ## Theorems -/

/-! ### Evaluation theorems on the concrete inputs -/

/-- C1: the electrolyte-batching constraint is not enforced.  With
`limit_electrolytes_per_batch = 1` and two eligible cells (cell 5 with
electrolyte position 2, cell 9 with electrolyte position 5) the engine
loads both, putting two distinct electrolyte positions in concurrent use:
after loading cell 5 the source appends the cell number 5 — not the
electrolyte position 2 — to `electrolytes_used`, so the filter then admits
any cell whose electrolyte position happens to equal a loaded cell number.
The claim (and the script's own docstring) requires that once 1 distinct
electrolyte position is in use, no newly loaded cell introduces a second. -/
theorem electrolyte_limit_not_enforced :
    (assign_cells_to_press c1cells healthyPresses false 1).isOkay = true ∧
    planOf (assign_cells_to_press c1cells healthyPresses false 1) = [(1, 5, 1), (2, 9, 2)] ∧
    (((cellsOf (assign_cells_to_press c1cells healthyPresses false 1)).filter
        (fun r => decide (0 < r.currentPressNumber))).map (·.electrolytePos)).dedup.length = 2 := by
  refine ⟨rfl, rfl, rfl⟩

/-- C2: the auto-mode dispatch test is broken by operator precedence.  On a
batch whose rows share one target ratio and one maximum ratio but carry
three distinct minimum ratios, the condition of case 6 evaluates to `true`
(so the engine runs the 2D cost-matrix assignment), although the claim —
and the comment and docstring in the source — require the exact-3D attempt
whenever any of the three columns has two or more distinct values. -/
theorem auto_mode_condition_bug :
    uniqueCount (c2batch.map (·.target_np)) = 1 ∧
    uniqueCount (c2batch.map (·.min_np)) = 3 ∧
    uniqueCount (c2batch.map (·.max_np)) = 1 ∧
    autoCond_code 1 3 1 = true ∧
    autoCond_spec 1 3 1 = false := by
  refine ⟨by decide, by decide, by decide, rfl, rfl⟩

/-- C3: the batch-eligibility mask never selects the eligible rows.  On a
two-row table whose rows both belong to batch 1 with last completed step 0
and error code 0, the mask expression — a chained comparison because `&`
binds tighter than `==` — raises pandas' ambiguous-truth-value error
instead of producing the row mask `[true, true]` that the claim (and the
script's own printed message) describes, so the run aborts and no rows are
ever eligible for permutation. -/
theorem batch_mask_precedence_bug :
    batchMaskCode 1 [1, 1] [0, 0] [0, 0] =
      Except.error "The truth value of a Series is ambiguous" ∧
    batchMaskSpec 1 [1, 1] [0, 0] [0, 0] = [true, true] := by
  exact ⟨rfl, rfl⟩

/-- C4 counterexample: with presses 1..3 healthy and empty, eligible cells
at rack positions 1, 2, 7, 8, 13 and rack-press linking on, the claim says
press 2 loads the cell at rack position 2 and press 3 stays empty.  Under
the `PRESS_TO_RACK` table the claim itself cites, press 2's class is 4,
which matches rack positions 4, 10, 16, ... — none of the eligible racks —
while class 2 (racks 2, 8, 14, ...) belongs to press 3.  The run loads no
cell on press 2 and loads the rack-2 cell on press 3. -/
theorem c4_press2_empty_press3_loads :
    (planOf c4run).all (fun e => decide (e.1 ≠ 2)) = true ∧
    (planOf c4run).any (fun e => decide (e.1 = 3)) = true ∧
    c4run.isOkay = true := by
  refine ⟨rfl, rfl, rfl⟩

/-- C4 amended: press 1 (class 1) loads the rack-1 cell (number 11),
press 2 (class 4) has no matching candidate and stays empty, and press 3
(class 2) loads the rack-2 cell (number 12). -/
theorem c4_amended_load_plan :
    planOf c4run = [(1, 11, 1), (3, 12, 2)] := by
  rfl

/-- C5 counterexample: press 1's loaded-cell field points at cell number
42, absent from the cell table, yet the run does not raise — it treats
press 1 as empty and loads the waiting cell 7 onto it.  The claim's "if"
direction (absent cell number ⇒ explicit inconsistent-state error) fails:
the engine derives press occupancy from the cells' current-press column
only and never consults the press table's loaded-cell field. -/
theorem absent_loaded_cell_is_not_an_error :
    (c5presses.get? 0).map (·.currentCellLoaded) = some 42 ∧
    c5cells.all (fun r => decide (r.cellNumber ≠ 42)) = true ∧
    (assign_cells_to_press c5cells c5presses false 0).isOkay = true ∧
    planOf (assign_cells_to_press c5cells c5presses false 0) = [(1, 7, 1)] := by
  refine ⟨rfl, rfl, rfl, rfl⟩

/-- C9 counterexample: a batch with fewer than 4 eligible rows is neither
reported nor skipped with the identity permutation — on this two-row
single-batch table the whole run aborts at the eligibility mask (see
`batch_mask_precedence_bug`), so the remaining processing never happens at
all. -/
theorem c9_small_batch_aborts_run :
    c9df.length = 2 ∧
    (run_batches c9df SortingMethod.m6 none).isOkay = false := by
  refine ⟨rfl, rfl⟩

/-! ### C8: the capacity cost model -/

/-- C8: `calculate_capacity` computes exactly
`(weight − current_collector_weight) × active_material_fraction ×
specific_capacity / 1000` per electrode (the source's
`1e-3 * (w - cc) * frac * sc` is the same rational), propagates a missing
weight field as NaN rather than zeroing it, and mutates nothing outside the
two capacity output fields. -/
theorem calculate_capacity_contract :
    (∀ w cc f sc : Option ℚ, calcCap w cc f sc = capSpec w cc f sc) ∧
    (∀ cc f sc : Option ℚ, calcCap none cc f sc = none) ∧
    (∀ w f sc : Option ℚ, calcCap w none f sc = none) ∧
    (∀ df : List CellAsm, (calculate_capacity df).map eraseCaps = df.map eraseCaps) ∧
    (∀ df : List CellAsm, (calculate_capacity df).map (·.anodeCap) =
      df.map (fun r => capSpec r.anodeWeight r.anodeCC r.anodeFrac r.anodeSpecCap)) ∧
    (∀ df : List CellAsm, (calculate_capacity df).map (·.cathodeCap) =
      df.map (fun r => capSpec r.cathodeWeight r.cathodeCC r.cathodeFrac r.cathodeSpecCap)) := by
  have hform : ∀ w cc f sc : Option ℚ, calcCap w cc f sc = capSpec w cc f sc := by
    intro w cc f sc
    rcases w with _ | w <;> rcases cc with _ | cc <;> rcases f with _ | f <;>
      rcases sc with _ | sc <;>
      simp only [calcCap, capSpec, optMul, optSub]
    ring_nf
  refine ⟨hform, ?_, ?_, ?_, ?_, ?_⟩
  · intro cc f sc; rcases cc with _ | cc <;> rcases f with _ | f <;> rcases sc with _ | sc <;> rfl
  · intro w f sc; rcases w with _ | w <;> rcases f with _ | f <;> rcases sc with _ | sc <;> rfl
  · intro df
    induction df with
    | nil => rfl
    | cons r rest ih => simp [calculate_capacity, eraseCaps]
  · intro df
    induction df with
    | nil => rfl
    | cons r rest ih =>
      simpa [calculate_capacity, hform r.anodeWeight r.anodeCC r.anodeFrac r.anodeSpecCap]
        using ih
  · intro df
    induction df with
    | nil => rfl
    | cons r rest ih =>
      simpa [calculate_capacity, hform r.cathodeWeight r.cathodeCC r.cathodeFrac r.cathodeSpecCap]
        using ih

/-! ### C6: post-matching acceptance and cell numbering -/

theorem numberRows_map_cellNumber (accept : CellAsm → Bool) :
    ∀ (l : List CellAsm) (k : ℕ),
      (numberRows accept l k).map (·.cellNumber) = densify (l.map accept) k
  | [], _ => rfl
  | r :: rest, k => by
    by_cases h : accept r <;>
      simp [numberRows, densify, h, numberRows_map_cellNumber accept rest]

theorem acceptCheck_addActual (r : CellAsm) : acceptCheck (addActual r) = specAcceptB r := by
  rcases h : optDiv r.anodeCap r.cathodeCap with _ | q <;>
    rcases hmn : r.min_np with _ | mn <;> rcases hmx : r.max_np with _ | mx <;>
    simp [acceptCheck, addActual, optLE, specAcceptB, h, hmn, hmx]

theorem specAcceptB_iff (r : CellAsm) : specAcceptB r = true ↔ AcceptSpec r := by
  unfold specAcceptB AcceptSpec
  rcases ha : r.anodeCap with _ | a
  · simp [optDiv, ha]
  rcases hc : r.cathodeCap with _ | c
  · simp [optDiv, ha, hc]
  by_cases hc0 : c = 0
  · subst hc0
    simp [optDiv, ha, hc]
  rcases hmn : r.min_np with _ | mn
  · simp [optDiv, ha, hc, hc0, hmn]
  rcases hmx : r.max_np with _ | mx
  · simp [optDiv, ha, hc, hc0, hmn, hmx]
  simp [optDiv, ha, hc, hc0, hmn, hmx, and_assoc]

/-- C6: with ratio checking enabled, `update_cell_numbers` accepts a row
iff its recomputed actual ratio (anode capacity over cathode capacity) is a
number within `[min_ratio, max_ratio]`, and rewrites the cell-number column
to exactly the spec's numbering: accepted rows get `1, 2, 3, ...` densely
in original row order, every rejected row gets 0. -/
theorem update_cell_numbers_acceptance :
    (∀ df : List CellAsm,
      (update_cell_numbers df true).map (·.cellNumber) = numberingSpec df) ∧
    (∀ r : CellAsm, specAcceptB r = true ↔ AcceptSpec r) := by
  constructor
  · intro df
    unfold update_cell_numbers numberingSpec
    rw [if_pos rfl, numberRows_map_cellNumber, List.map_map]
    simp [Function.comp_def, acceptCheck_addActual]
  · exact specAcceptB_iff

/-! ### C9: no small-batch skip; the per-batch loop aborts -/

theorem pandasTruth_ambiguous {s : List Bool} (h : 2 ≤ s.length) :
    pandasTruth s = .error "The truth value of a Series is ambiguous" := by
  match s with
  | [] => exact absurd h (by simp)
  | [b] => exact absurd h (by simp)
  | a :: b :: t => rfl

theorem batchMaskCode_ambiguous {b : ℤ} {l1 l2 l3 : List ℤ}
    (h1 : 2 ≤ l1.length) (h2 : 2 ≤ l2.length) :
    batchMaskCode b l1 l2 l3 = .error "The truth value of a Series is ambiguous" := by
  have hz : 2 ≤ (List.zipWith (fun a b => decide (a = b)) l1
      (l2.map (fun v => Int.land b v))).length := by
    simp only [List.length_zipWith, List.length_map]
    omega
  simp only [batchMaskCode]
  rw [pandasTruth_ambiguous hz]

/-- C9 amended: on any table with at least two rows the electrode-matching
run aborts with the ambiguous-truth-value error at the first batch's
eligibility mask, whatever the sorting method and exact-solver outcome; in
particular no batch is ever reported as too small and skipped with the
identity permutation — no fewer-than-4-rows check exists in the per-batch
loop. -/
theorem run_aborts_on_multirow_table (df : List CellAsm) (mode : SortingMethod)
    (exactOut : Option (List (ℕ × ℕ × ℕ))) (h2 : 2 ≤ df.length) :
    (run_batches df mode exactOut).isOkay = false := by
  have hlen : (calculate_capacity df).length = df.length := by
    simp [calculate_capacity]
  have hne : ((calculate_capacity df).map (·.batchNumber)).dedup ≠ [] := by
    simp only [ne_eq, List.dedup_eq_nil, List.map_eq_nil_iff]
    intro hnil
    rw [hnil] at hlen
    simp at hlen
    omega
  obtain ⟨b, rest, hbr⟩ := List.exists_cons_of_ne_nil hne
  have hmask : batchMaskCode b ((calculate_capacity df).map (·.batchNumber))
      ((calculate_capacity df).map (·.lastCompletedStep))
      ((calculate_capacity df).map (·.errorCode)) =
      .error "The truth value of a Series is ambiguous" := by
    apply batchMaskCode_ambiguous <;> simp only [List.length_map, hlen] <;> omega
  simp only [run_batches]
  rw [hbr, List.foldlM_cons, hmask]
  rfl

/-! ### C10: the anode permutation is always the identity -/

theorem greedyStep_subset {st : List (ℕ × ℕ × ℕ)} {a t : ℕ × ℕ × ℕ} (h : t ∈ st) :
    t ∈ greedyStep st a := by
  unfold greedyStep
  split <;> simp [h]

theorem greedyFold_mem_of_mem :
    ∀ (l : List (ℕ × ℕ × ℕ)) {st : List (ℕ × ℕ × ℕ)} {t : ℕ × ℕ × ℕ},
      t ∈ st → t ∈ l.foldl greedyStep st
  | [], _, _, h => h
  | _ :: l, _, _, h => greedyFold_mem_of_mem l (greedyStep_subset h)

theorem hitBy_mono {a : ℕ × ℕ × ℕ} {st st' : List (ℕ × ℕ × ℕ)}
    (hsub : ∀ c ∈ st, c ∈ st') (h : hitBy a st) : hitBy a st' := by
  rcases h with ⟨c, hc, he⟩ | ⟨c, hc, he⟩ | ⟨c, hc, he⟩
  · exact Or.inl ⟨c, hsub c hc, he⟩
  · exact Or.inr (Or.inl ⟨c, hsub c hc, he⟩)
  · exact Or.inr (Or.inr ⟨c, hsub c hc, he⟩)

theorem hitBy_greedyStep (st : List (ℕ × ℕ × ℕ)) (a : ℕ × ℕ × ℕ) :
    hitBy a (greedyStep st a) := by
  unfold greedyStep
  by_cases h : tripleFresh st a
  · rw [if_pos h]
    exact Or.inl ⟨a, by simp, rfl⟩
  · rw [if_neg h]
    unfold tripleFresh at h
    simp only [Bool.and_eq_true, List.all_eq_true, decide_eq_true_eq, not_and_or,
      not_forall] at h
    rcases h with (⟨c, hc, he⟩ | ⟨c, hc, he⟩) | ⟨c, hc, he⟩
    · exact Or.inl ⟨c, hc, not_not.mp he⟩
    · exact Or.inr (Or.inl ⟨c, hc, not_not.mp he⟩)
    · exact Or.inr (Or.inr ⟨c, hc, not_not.mp he⟩)

theorem greedyFold_hits :
    ∀ (l st : List (ℕ × ℕ × ℕ)) (t : ℕ × ℕ × ℕ), t ∈ l →
      hitBy t (l.foldl greedyStep st)
  | [], _, _, h => absurd h (List.not_mem_nil _)
  | a :: l, st, t, h => by
    rcases List.mem_cons.mp h with rfl | hmem
    · exact hitBy_mono (fun c hc => greedyFold_mem_of_mem l hc) (hitBy_greedyStep st t)
    · exact greedyFold_hits l (greedyStep st a) t hmem

theorem greedyStep_roles_nodup {st : List (ℕ × ℕ × ℕ)} {a : ℕ × ℕ × ℕ}
    (h0 : (st.map (·.1)).Nodup) (h1 : (st.map (·.2.1)).Nodup)
    (h2 : (st.map (·.2.2)).Nodup) :
    ((greedyStep st a).map (·.1)).Nodup ∧ ((greedyStep st a).map (·.2.1)).Nodup ∧
      ((greedyStep st a).map (·.2.2)).Nodup := by
  unfold greedyStep
  by_cases h : tripleFresh st a
  · rw [if_pos h]
    unfold tripleFresh at h
    simp only [Bool.and_eq_true, List.all_eq_true, decide_eq_true_eq] at h
    obtain ⟨⟨ha0, ha1⟩, ha2⟩ := h
    refine ⟨?_, ?_, ?_⟩ <;> rw [List.map_append] <;>
      rw [List.nodup_append] <;> refine ⟨by assumption, List.nodup_singleton _, ?_⟩ <;>
      simp only [List.map_cons, List.map_nil, List.disjoint_singleton] <;>
      intro hmem
    · obtain ⟨c, hc, he⟩ := List.mem_map.mp hmem
      exact ha0 c hc he
    · obtain ⟨c, hc, he⟩ := List.mem_map.mp hmem
      exact ha1 c hc he
    · obtain ⟨c, hc, he⟩ := List.mem_map.mp hmem
      exact ha2 c hc he
  · rw [if_neg h]
    exact ⟨h0, h1, h2⟩

theorem greedyFold_roles_nodup :
    ∀ (l st : List (ℕ × ℕ × ℕ)), (st.map (·.1)).Nodup → (st.map (·.2.1)).Nodup →
      (st.map (·.2.2)).Nodup →
      ((l.foldl greedyStep st).map (·.1)).Nodup ∧
        ((l.foldl greedyStep st).map (·.2.1)).Nodup ∧
        ((l.foldl greedyStep st).map (·.2.2)).Nodup
  | [], _, h0, h1, h2 => ⟨h0, h1, h2⟩
  | a :: l, st, h0, h1, h2 => by
    obtain ⟨g0, g1, g2⟩ := greedyStep_roles_nodup (a := a) h0 h1 h2
    exact greedyFold_roles_nodup l (greedyStep st a) g0 g1 g2

theorem greedyFold_subset :
    ∀ (l st : List (ℕ × ℕ × ℕ)) (t : ℕ × ℕ × ℕ),
      t ∈ l.foldl greedyStep st → t ∈ st ∨ t ∈ l
  | [], _, _, h => Or.inl h
  | a :: l, st, t, h => by
    rcases greedyFold_subset l (greedyStep st a) t h with hin | hin
    · unfold greedyStep at hin
      split at hin
      · rcases List.mem_append.mp hin with h' | h'
        · exact Or.inl h'
        · simp only [List.mem_singleton] at h'
          subst h'
          exact Or.inr (List.mem_cons_self _ _)
      · exact Or.inl hin
    · exact Or.inr (List.mem_cons_of_mem _ hin)

theorem mem_allTriples {n : ℕ} {t : ℕ × ℕ × ℕ} :
    t ∈ allTriples n ↔ t.1 < n ∧ t.2.1 < n ∧ t.2.2 < n := by
  obtain ⟨i, j, k⟩ := t
  simp only [allTriples, List.mem_flatMap, List.mem_map, List.mem_range, Prod.mk.injEq]
  constructor
  · rintro ⟨i', hi', j', hj', k', hk', rfl, rfl, rfl⟩
    exact ⟨hi', hj', hk'⟩
  · rintro ⟨hi, hj, hk⟩
    exact ⟨i, hi, j, hj, k, hk, rfl, rfl, rfl⟩

theorem greedy_anodes_perm_range {l : List (ℕ × ℕ × ℕ)} {n : ℕ}
    (hb : ∀ t ∈ l, t.1 < n ∧ t.2.1 < n ∧ t.2.2 < n)
    (hall : ∀ i j k, i < n → j < n → k < n → (i, j, k) ∈ l) :
    ((l.foldl greedyStep []).map (·.1)).Perm (List.range n) := by
  have hmem : ∀ t ∈ l.foldl greedyStep [], t ∈ l := fun t ht =>
    (greedyFold_subset l [] t ht).resolve_left (by simp)
  obtain ⟨hnd0, hnd1, hnd2⟩ := greedyFold_roles_nodup l []
    List.nodup_nil List.nodup_nil List.nodup_nil
  have hsub0 : ((l.foldl greedyStep []).map (·.1)) ⊆ List.range n := by
    intro x hx
    obtain ⟨t, ht, rfl⟩ := List.mem_map.mp hx
    exact List.mem_range.mpr (hb t (hmem t ht)).1
  have hsub1 : ((l.foldl greedyStep []).map (·.2.1)) ⊆ List.range n := by
    intro x hx
    obtain ⟨t, ht, rfl⟩ := List.mem_map.mp hx
    exact List.mem_range.mpr (hb t (hmem t ht)).2.1
  have hsub2 : ((l.foldl greedyStep []).map (·.2.2)) ⊆ List.range n := by
    intro x hx
    obtain ⟨t, ht, rfl⟩ := List.mem_map.mp hx
    exact List.mem_range.mpr (hb t (hmem t ht)).2.2
  have miss : ∀ f : ℕ × ℕ × ℕ → ℕ, ((l.foldl greedyStep []).map f).Nodup →
      ((l.foldl greedyStep []).map f) ⊆ List.range n →
      (l.foldl greedyStep []).length < n →
      ∃ i, i < n ∧ i ∉ (l.foldl greedyStep []).map f := by
    intro f hnd hsub hlt
    by_contra hnone
    push_neg at hnone
    have hsup : List.range n ⊆ (l.foldl greedyStep []).map f := by
      intro i hi
      exact hnone i (List.mem_range.mp hi)
    have := (List.subperm_of_subset (List.nodup_range n) hsup).length_le
    simp only [List.length_range, List.length_map] at this
    omega
  have hge : n ≤ (l.foldl greedyStep []).length := by
    by_contra hlt
    push_neg at hlt
    obtain ⟨i, hi, hi0⟩ := miss (·.1) hnd0 hsub0 hlt
    obtain ⟨j, hj, hj1⟩ := miss (·.2.1) hnd1 hsub1 hlt
    obtain ⟨k, hk, hk2⟩ := miss (·.2.2) hnd2 hsub2 hlt
    rcases greedyFold_hits l [] (i, j, k) (hall i j k hi hj hk) with
      ⟨c, hc, he⟩ | ⟨c, hc, he⟩ | ⟨c, hc, he⟩
    · exact hi0 (List.mem_map.mpr ⟨c, hc, he⟩)
    · exact hj1 (List.mem_map.mpr ⟨c, hc, he⟩)
    · exact hk2 (List.mem_map.mpr ⟨c, hc, he⟩)
  refine (List.subperm_of_subset hnd0 hsub0).perm_of_length_le ?_
  simp only [List.length_range, List.length_map]
  exact hge

theorem sortByAnode_map_eq_range {l : List (ℕ × ℕ × ℕ)} {n : ℕ}
    (hperm : (l.map (·.1)).Perm (List.range n)) :
    (sortByAnode l).map (·.1) = List.range n := by
  have hp : ((sortByAnode l).map (·.1)).Perm (List.range n) :=
    ((List.perm_insertionSort anodeLE l).map (·.1)).trans hperm
  have hs : List.Sorted (· ≤ ·) ((sortByAnode l).map (·.1)) := by
    show List.Pairwise (· ≤ ·) _
    rw [List.pairwise_map]
    exact List.sorted_insertionSort anodeLE l
  exact List.eq_of_perm_of_sorted hp hs (List.sorted_le_range n)

theorem greedy3d_anodes_eq_range (cost : ℕ × ℕ × ℕ → ℚ) (n : ℕ) :
    (sortByAnode (greedy_npartite_matching cost n)).map (·.1) = List.range n := by
  apply sortByAnode_map_eq_range
  unfold greedy_npartite_matching
  apply greedy_anodes_perm_range
  · intro t ht
    exact mem_allTriples.mp ((List.mem_insertionSort _).mp ht)
  · intro i j k hi hj hk
    exact (List.mem_insertionSort _).mpr (mem_allTriples.mpr ⟨hi, hj, hk⟩)

/-- C10: in every sorting method — identity (0), no-sort (1), sort by
capacity (2), 2D cost matrix (3), greedy 3D (4), exact 3D (5) and auto (6)
— the anode index array returned for a batch is `0, 1, ..., n-1`: anode
rows never move.  The 2D solver returns its row indices in ascending
order, and both 3D paths finish with `ind_sort = np.argsort(anode_ind)`;
the exact-solver outcome is only constrained to satisfy the ILP's
use-each-anode-exactly-once constraints. -/
theorem anode_order_never_changes (mode : SortingMethod) (dfb : List CellAsm)
    (exactOut : Option (List (ℕ × ℕ × ℕ)))
    (hex : ∀ out, exactOut = some out → (out.map (·.1)).Perm (List.range dfb.length)) :
    (chooseIndices mode dfb exactOut).1 = List.range dfb.length := by
  cases mode with
  | m0 => rfl
  | m1 => rfl
  | m2 => rfl
  | m3 => rfl
  | m4 => exact greedy3d_anodes_eq_range (cost3Entry dfb 2) dfb.length
  | m5 =>
    cases hx : exactOut with
    | none => exact greedy3d_anodes_eq_range (cost3Entry dfb 2) dfb.length
    | some out =>
      have hperm := hex out hx
      show (sortByAnode out).map (·.1) = List.range dfb.length
      exact sortByAnode_map_eq_range hperm
  | m6 =>
    simp only [chooseIndices]
    split
    · rfl
    · cases hx : exactOut with
      | none => exact greedy3d_anodes_eq_range (cost3Entry dfb 2) dfb.length
      | some out =>
        have hperm := hex out hx
        show (sortByAnode out).map (·.1) = List.range dfb.length
        exact sortByAnode_map_eq_range hperm

/-- Witness for `anode_order_never_changes` at a concrete two-row batch
with the exact solver timing out (greedy fallback). -/
theorem anode_order_never_changes_witness :
    (chooseIndices SortingMethod.m5 c10batch none).1 = List.range c10batch.length :=
  anode_order_never_changes SortingMethod.m5 c10batch none (fun _ h => nomatch h)

/-! ### Press assignment: basic lemmas -/

theorem updAt_get?_ne {α : Type} :
    ∀ (l : List α) (j : ℕ) (f : α → α) (i : ℕ), i ≠ j →
      (updAt l j f).get? i = l.get? i
  | [], _, _, _, _ => rfl
  | a :: rest, 0, f, 0, h => absurd rfl h
  | a :: rest, 0, f, i + 1, _ => rfl
  | a :: rest, j + 1, f, 0, _ => rfl
  | a :: rest, j + 1, f, i + 1, h =>
    updAt_get?_ne rest j f i (fun he => h (by rw [he]))

theorem markErrorsAux_get? (avail : List (ℕ × ℤ × ℤ)) (press : ℤ) :
    ∀ (l : List CellRow) (k i : ℕ),
      (markErrorsAux avail press l k).get? i =
        (l.get? i).map (fun r =>
          if avail.any (fun t => t.1 == k + i + 1 && rackClass t.1 == PRESS_TO_RACK press) then
            { r with errorCode := 301 }
          else r)
  | [], _, _ => rfl
  | r :: rest, k, 0 => rfl
  | r :: rest, k, i + 1 => by
    show (markErrorsAux avail press rest (k + 1)).get? i = _
    rw [markErrorsAux_get? avail press rest (k + 1) i]
    have harith : k + 1 + i + 1 = k + (i + 1) + 1 := by omega
    rw [harith]
    rfl

theorem eraseFirstCell_subset {c : ℤ} :
    ∀ {l : List (ℕ × ℤ × ℤ)} {t : ℕ × ℤ × ℤ}, t ∈ eraseFirstCell l c → t ∈ l := by
  intro l
  induction l with
  | nil => intro t h; exact absurd h (List.not_mem_nil _)
  | cons a rest ih =>
    intro t h
    unfold eraseFirstCell at h
    by_cases ha : a.2.1 = c
    · rw [if_pos ha] at h
      exact List.mem_cons_of_mem _ h
    · rw [if_neg ha] at h
      rcases List.mem_cons.mp h with rfl | h'
      · exact List.mem_cons_self _ _
      · exact List.mem_cons_of_mem _ (ih h')

theorem availableAux_mem :
    ∀ (l : List CellRow) (k : ℕ) (t : ℕ × ℤ × ℤ), t ∈ availableAux l k →
      ∃ (j : ℕ) (r : CellRow), l.get? j = some r ∧ t.1 = k + j + 1 ∧
        r.cellNumber = t.2.1 ∧ r.currentPressNumber = 0 ∧ 0 < r.cellNumber
  | [], _, _, h => absurd h (List.not_mem_nil _)
  | r :: rest, k, t, h => by
    unfold availableAux at h
    by_cases hc : 0 < r.cellNumber ∧ r.lastCompletedStep < RETURN_STEP ∧
        r.errorCode = 0 ∧ r.currentPressNumber = 0
    · rw [if_pos hc] at h
      rcases List.mem_cons.mp h with rfl | h'
      · exact ⟨0, r, rfl, by omega, rfl, hc.2.2.2, hc.1⟩
      · obtain ⟨j, r', hg, ht, hn, hp0, hpos⟩ := availableAux_mem rest (k + 1) t h'
        exact ⟨j + 1, r', hg, by omega, hn, hp0, hpos⟩
    · rw [if_neg hc] at h
      obtain ⟨j, r', hg, ht, hn, hp0, hpos⟩ := availableAux_mem rest (k + 1) t h
      exact ⟨j + 1, r', hg, by omega, hn, hp0, hpos⟩

theorem noDupPos_spec :
    ∀ (l : List ℤ), noDupPos l = true →
      ∀ (i j : ℕ) (a b : ℤ), i ≠ j → l.get? i = some a → l.get? j = some b →
        0 < a → a ≠ b
  | [], _, i, j, a, b, _, ha, _, _ => by simp at ha
  | c :: rest, h, i, j, a, b, hij, ha, hb, hpos => by
    unfold noDupPos at h
    rw [Bool.and_eq_true] at h
    obtain ⟨h1, h2⟩ := h
    match i, j with
    | 0, 0 => exact absurd rfl hij
    | 0, j + 1 =>
      simp only [List.get?_cons_zero, Option.some.injEq] at ha
      subst ha
      rw [Bool.or_eq_true] at h1
      rcases h1 with h1 | h1
      · have := of_decide_eq_true h1
        omega
      · rw [List.all_eq_true] at h1
        have hbm : b ∈ rest := List.get?_mem hb
        have := of_decide_eq_true (h1 b hbm)
        exact fun he => this he.symm
    | i + 1, 0 =>
      simp only [List.get?_cons_zero, Option.some.injEq] at hb
      subst hb
      intro he
      rw [Bool.or_eq_true] at h1
      rcases h1 with h1 | h1
      · have := of_decide_eq_true h1
        omega
      · rw [List.all_eq_true] at h1
        have ham : a ∈ rest := List.get?_mem ha
        exact of_decide_eq_true (h1 a ham) he
    | i + 1, j + 1 =>
      exact noDupPos_spec rest h2 i j a b (fun he => hij (by rw [he])) ha hb hpos

/-! ### C7: healthy loaded bindings are preserved -/

theorem press_step_keeps_binding {link : Bool} {limit : ℕ} {pwe pal : List ℤ}
    {p : ℤ} {st st' : AssignState} {i : ℕ} {row : CellRow} {prow : PressRow}
    (hp : 0 < row.currentPressNumber) (hpal : row.currentPressNumber ∈ pal)
    (hq : 0 < p)
    (h1 : st.cells.get? i = some row)
    (h2 : st.presses.get? (row.currentPressNumber - 1).toNat = some prow)
    (h3 : ∀ t ∈ st.avail, t.1 ≠ i + 1 ∧ t.2.1 ≠ row.cellNumber)
    (h4 : ∀ e ∈ st.plan, e.2.1 ≠ row.cellNumber)
    (hstep : press_step link limit pwe pal p st = .ok st') :
    st'.cells.get? i = some row ∧
      st'.presses.get? (row.currentPressNumber - 1).toNat = some prow ∧
      (∀ t ∈ st'.avail, t.1 ≠ i + 1 ∧ t.2.1 ≠ row.cellNumber) ∧
      (∀ e ∈ st'.plan, e.2.1 ≠ row.cellNumber) := by
  simp only [press_step] at hstep
  by_cases hc1 : p ∈ pwe ∧ link = true
  · rw [if_pos hc1] at hstep
    injection hstep with hst
    subst hst
    refine ⟨?_, h2, h3, h4⟩
    show (markErrorsAux st.avail p st.cells 0).get? i = some row
    rw [markErrorsAux_get?, h1]
    have hcond : (st.avail.any fun t =>
        t.1 == 0 + i + 1 && rackClass t.1 == PRESS_TO_RACK p) = false := by
      rw [List.any_eq_false]
      intro t ht
      simp only [Bool.and_eq_true, beq_iff_eq, not_and]
      intro hteq
      have := (h3 t ht).1
      omega
    rw [hcond]
    rfl
  · rw [if_neg hc1] at hstep
    by_cases hc2 : p ∈ pal
    · rw [if_pos hc2] at hstep
      split at hstep
      · -- exactly one row references the press; the inner healthy check
        split at hstep
        · injection hstep with hst
          subst hst
          exact ⟨h1, h2, h3, h4⟩
        · injection hstep with hst
          subst hst
          exact ⟨h1, h2, h3, h4⟩
      · -- zero or several rows: ValueError
        injection hstep
    · rw [if_neg hc2] at hstep
      split at hstep
      · -- no candidate: press skipped
        injection hstep with hst
        subst hst
        exact ⟨h1, h2, h3, h4⟩
      · -- load the first candidate (r, c, _e)
        rename_i r c e tail heq
        injection hstep with hst
        subst hst
        have hmem : (r, c, e) ∈ st.avail :=
          (List.mem_filter.mp (heq ▸ List.mem_cons_self _ _)).1
        have hcne : c ≠ row.cellNumber := (h3 _ hmem).2
        refine ⟨?_, ?_, ?_, ?_⟩
        · show ((st.cells.map _).get? i) = some row
          rw [List.get?_map, h1]
          simp only [Option.map_some']
          rw [if_neg (fun he => hcne he.symm)]
        · show (updAt st.presses (p - 1).toNat _).get? (row.currentPressNumber - 1).toNat =
            some prow
          rw [updAt_get?_ne]
          · exact h2
          · have hne : p ≠ row.currentPressNumber := fun he => hc2 (he ▸ hpal)
            omega
        · intro t ht
          exact h3 t (eraseFirstCell_subset ht)
        · intro e' he'
          rcases List.mem_append.mp he' with h' | h'
          · exact h4 e' h'
          · simp only [List.mem_singleton] at h'
            subst h'
            exact hcne

theorem run_presses_keeps_binding {link : Bool} {limit : ℕ} {pwe pal : List ℤ}
    {i : ℕ} {row : CellRow} {prow : PressRow}
    (hp : 0 < row.currentPressNumber) (hpal : row.currentPressNumber ∈ pal) :
    ∀ (ps : List ℤ) (st out : AssignState), (∀ q ∈ ps, 0 < q) →
      st.cells.get? i = some row →
      st.presses.get? (row.currentPressNumber - 1).toNat = some prow →
      (∀ t ∈ st.avail, t.1 ≠ i + 1 ∧ t.2.1 ≠ row.cellNumber) →
      (∀ e ∈ st.plan, e.2.1 ≠ row.cellNumber) →
      run_presses link limit pwe pal ps st = .ok out →
      out.cells.get? i = some row ∧
        out.presses.get? (row.currentPressNumber - 1).toNat = some prow ∧
        ∀ e ∈ out.plan, e.2.1 ≠ row.cellNumber
  | [], st, out, _, h1, h2, _, h4, hrun => by
    unfold run_presses at hrun
    injection hrun with h
    subst h
    exact ⟨h1, h2, h4⟩
  | p :: ps, st, out, hpos, h1, h2, h3, h4, hrun => by
    unfold run_presses at hrun
    by_cases hav : st.avail.isEmpty = true
    · rw [if_pos hav] at hrun
      injection hrun with h
      subst h
      exact ⟨h1, h2, h4⟩
    · rw [if_neg hav] at hrun
      cases hps : press_step link limit pwe pal p st with
      | error e =>
        rw [hps] at hrun
        exact absurd hrun (by simp)
      | ok st1 =>
        rw [hps] at hrun
        obtain ⟨g1, g2, g3, g4⟩ := press_step_keeps_binding hp hpal
          (hpos p (List.mem_cons_self _ _)) h1 h2 h3 h4 hps
        exact run_presses_keeps_binding hp hpal ps st1 out
          (fun q hq => hpos q (List.mem_cons_of_mem _ hq)) g1 g2 g3 g4 hrun

/-- C7: a healthy loaded binding survives the tick untouched.  If cell
numbers are unique (the data model's dense sequential numbering), the row
at index `i` is loaded on press `p > 0` and healthy, and press `p` is
healthy, then after a successful run the cell row is unchanged, press `p`'s
table row is unchanged, and no entry of the new load plan carries that
cell's number — no press steals or overwrites the existing pair. -/
theorem press_tick_preserves_healthy_bindings
    (cells : List CellRow) (presses : List PressRow) (link : Bool) (limit : ℕ)
    (i : ℕ) (row : CellRow) (prow : PressRow) (out : AssignState)
    (hnd : noDupPos (cells.map (·.cellNumber)) = true)
    (hrow : cells.get? i = some row)
    (hp : 0 < row.currentPressNumber)
    (hrowok : row.errorCode = 0)
    (hpress : presses.get? (row.currentPressNumber - 1).toNat = some prow)
    (hpressok : prow.errorCode = 0)
    (hrun : assign_cells_to_press cells presses link limit = .ok out) :
    out.cells.get? i = some row ∧
      out.presses.get? (row.currentPressNumber - 1).toNat = some prow ∧
      ∀ e ∈ out.plan, e.2.1 ≠ row.cellNumber := by
  simp only [assign_cells_to_press] at hrun
  have hpal : row.currentPressNumber ∈
      ((cells.filter (fun r => decide (0 < r.currentPressNumber))).map
        (·.currentPressNumber)) := by
    apply List.mem_map.mpr
    refine ⟨row, ?_, rfl⟩
    apply List.mem_filter.mpr
    exact ⟨List.get?_mem hrow, by simpa using hp⟩
  have h3i : ∀ t ∈ availableInit cells, t.1 ≠ i + 1 ∧ t.2.1 ≠ row.cellNumber := by
    intro t ht
    obtain ⟨j, r', hg, ht1, hn, hp0, hposn⟩ := availableAux_mem cells 0 t ht
    have hji : j ≠ i := by
      intro he
      rw [he, hrow] at hg
      injection hg with hg
      rw [hg, hp0] at hp
      exact absurd hp (by omega)
    constructor
    · intro he1
      apply hji
      omega
    · intro he2
      have hga : (cells.map (·.cellNumber)).get? j = some r'.cellNumber := by
        rw [List.get?_map, hg]
        rfl
      have hgb : (cells.map (·.cellNumber)).get? i = some row.cellNumber := by
        rw [List.get?_map, hrow]
        rfl
      exact noDupPos_spec _ hnd j i r'.cellNumber row.cellNumber hji hga hgb hposn
        (hn.trans he2)
  exact run_presses_keeps_binding hp hpal [1, 2, 3, 4, 5, 6]
    { cells := cells, presses := presses, avail := availableInit cells,
      electrolytesUsed := [], plan := [] } out (by decide) hrow hpress h3i
    (fun e he => absurd he (List.not_mem_nil _)) hrun

/-- Witness for `press_tick_preserves_healthy_bindings`: the cell at rack 1
(number 3) stays bound to press 2 while the engine loads the waiting cell 4
onto press 1. -/
theorem press_tick_preserves_healthy_bindings_witness :
    ∃ out, assign_cells_to_press c7cells c7presses false 0 = .ok out ∧
      (out.cells.get? 0 = some ⟨3, 10, 0, 2, 1⟩ ∧
        out.presses.get? 1 = some ⟨2, 3, 0⟩ ∧
        ∀ e ∈ out.plan, e.2.1 ≠ (3 : ℤ)) := by
  cases hrun : assign_cells_to_press c7cells c7presses false 0 with
  | error e =>
    have hok : (assign_cells_to_press c7cells c7presses false 0).isOkay = true := by decide
    rw [hrun] at hok
    exact absurd hok (by simp [Except.isOkay])
  | ok out =>
    refine ⟨out, rfl, ?_⟩
    exact press_tick_preserves_healthy_bindings c7cells c7presses false 0 0
      ⟨3, 10, 0, 2, 1⟩ ⟨2, 3, 0⟩ out (by decide) (by decide) (by decide) (by decide)
      (by decide) (by decide) hrun

/-! ### C5: when the engine raises -/

theorem markErrorsAux_cellNumbers (avail : List (ℕ × ℤ × ℤ)) (press : ℤ) :
    ∀ (l : List CellRow) (k : ℕ),
      (markErrorsAux avail press l k).map (·.cellNumber) = l.map (·.cellNumber)
  | [], _ => rfl
  | r :: rest, k => by
    show (_ :: markErrorsAux avail press rest (k + 1)).map _ = _
    simp only [List.map_cons, markErrorsAux_cellNumbers avail press rest (k + 1)]
    congr 1
    split <;> rfl

theorem markErrorsAux_pressNumbers (avail : List (ℕ × ℤ × ℤ)) (press : ℤ) :
    ∀ (l : List CellRow) (k : ℕ),
      (markErrorsAux avail press l k).map (·.currentPressNumber) =
        l.map (·.currentPressNumber)
  | [], _ => rfl
  | r :: rest, k => by
    show (_ :: markErrorsAux avail press rest (k + 1)).map _ = _
    simp only [List.map_cons, markErrorsAux_pressNumbers avail press rest (k + 1)]
    congr 1
    split <;> rfl

theorem eraseFirstCell_sublist {c : ℤ} :
    ∀ (l : List (ℕ × ℤ × ℤ)), List.Sublist (eraseFirstCell l c) l
  | [] => List.Sublist.refl _
  | t :: rest => by
    unfold eraseFirstCell
    split
    · exact List.sublist_cons_self _ _
    · exact List.Sublist.cons₂ _ (eraseFirstCell_sublist rest)

theorem eraseFirstCell_ne {c : ℤ} :
    ∀ {l : List (ℕ × ℤ × ℤ)}, ((l.map (·.2.1)).Nodup) →
      ∀ t ∈ eraseFirstCell l c, t.2.1 ≠ c := by
  intro l
  induction l with
  | nil => intro _ t ht; exact absurd ht (List.not_mem_nil _)
  | cons a rest ih =>
    intro hnd t ht
    unfold eraseFirstCell at ht
    rw [List.map_cons, List.nodup_cons] at hnd
    by_cases ha : a.2.1 = c
    · rw [if_pos ha] at ht
      intro he
      exact hnd.1 (by rw [ha, ← he]; exact List.mem_map.mpr ⟨t, ht, rfl⟩)
    · rw [if_neg ha] at ht
      rcases List.mem_cons.mp ht with rfl | ht'
      · exact ha
      · exact ih hnd.2 t ht'

theorem noDupPos_countP_le (q : ℤ) (hq : 0 < q) :
    ∀ (l : List ℤ), noDupPos l = true → l.countP (fun x => decide (x = q)) ≤ 1
  | [], _ => by simp
  | c :: rest, h => by
    unfold noDupPos at h
    rw [Bool.and_eq_true] at h
    obtain ⟨h1, h2⟩ := h
    rw [List.countP_cons]
    by_cases hc : c = q
    · subst hc
      have hz : rest.countP (fun x => decide (x = c)) = 0 := by
        rw [List.countP_eq_zero]
        intro a ha
        rw [Bool.or_eq_true] at h1
        rcases h1 with h1 | h1
        · have := of_decide_eq_true h1
          omega
        · rw [List.all_eq_true] at h1
          simp only [decide_eq_true_eq]
          exact of_decide_eq_true (h1 a ha)
      rw [hz]
      simp
    · have hrec := noDupPos_countP_le q hq rest h2
      simp only [decide_eq_true_eq, hc, if_false]
      omega

theorem availableAux_numbers_nodup :
    ∀ (l : List CellRow) (k : ℕ), noDupPos (l.map (·.cellNumber)) = true →
      ((availableAux l k).map (·.2.1)).Nodup
  | [], _, _ => List.nodup_nil
  | r :: rest, k, h => by
    rw [List.map_cons] at h
    unfold noDupPos at h
    rw [Bool.and_eq_true] at h
    obtain ⟨h1, h2⟩ := h
    unfold availableAux
    by_cases hc : 0 < r.cellNumber ∧ r.lastCompletedStep < RETURN_STEP ∧
        r.errorCode = 0 ∧ r.currentPressNumber = 0
    · rw [if_pos hc]
      rw [List.map_cons, List.nodup_cons]
      constructor
      · intro hmem
        obtain ⟨t, ht, hte⟩ := List.mem_map.mp hmem
        obtain ⟨j, r', hg, _, hn, _, _⟩ := availableAux_mem rest (k + 1) t ht
        rw [Bool.or_eq_true] at h1
        rcases h1 with h1 | h1
        · have := of_decide_eq_true h1
          have := hc.1
          omega
        · rw [List.all_eq_true] at h1
          have hm : r'.cellNumber ∈ rest.map (·.cellNumber) :=
            List.mem_map.mpr ⟨r', List.get?_mem hg, rfl⟩
          exact of_decide_eq_true (h1 _ hm) (hn.trans hte)
      · exact availableAux_numbers_nodup rest (k + 1) h2
    · rw [if_neg hc]
      exact availableAux_numbers_nodup rest (k + 1) h2

theorem markErrorsAux_countP_press (avail : List (ℕ × ℤ × ℤ)) (press q : ℤ) :
    ∀ (l : List CellRow) (k : ℕ),
      (markErrorsAux avail press l k).countP (fun r => decide (r.currentPressNumber = q)) =
        l.countP (fun r => decide (r.currentPressNumber = q))
  | [], _ => rfl
  | r :: rest, k => by
    show List.countP _ (_ :: markErrorsAux avail press rest (k + 1)) = _
    rw [List.countP_cons, List.countP_cons,
      markErrorsAux_countP_press avail press q rest (k + 1)]
    congr 1
    split <;> rfl

theorem markErrorsAux_mem (avail : List (ℕ × ℤ × ℤ)) (press : ℤ) :
    ∀ (l : List CellRow) (k : ℕ) (r' : CellRow), r' ∈ markErrorsAux avail press l k →
      ∃ r ∈ l, r'.cellNumber = r.cellNumber ∧
        r'.currentPressNumber = r.currentPressNumber
  | [], _, _, h => absurd h (List.not_mem_nil _)
  | r :: rest, k, r', h => by
    rcases List.mem_cons.mp h with he | h'
    · refine ⟨r, List.mem_cons_self _ _, ?_⟩
      rw [he]
      constructor <;> split <;> rfl
    · obtain ⟨r0, hr0, hnum, hpress⟩ := markErrorsAux_mem avail press rest (k + 1) r' h'
      exact ⟨r0, List.mem_cons_of_mem _ hr0, hnum, hpress⟩

theorem map_cellNumber_update (c p : ℤ) :
    ∀ (l : List CellRow),
      ((l.map (fun row => if row.cellNumber = c then
          { row with currentPressNumber := p } else row)).map (·.cellNumber)) =
        l.map (·.cellNumber)
  | [] => rfl
  | r :: rest => by
    simp only [List.map_cons, map_cellNumber_update c p rest]
    congr 1
    split <;> rfl

theorem countP_press_update (c p q : ℤ) (hpq : p ≠ q) (hq : 0 < q) :
    ∀ (l : List CellRow), (∀ r ∈ l, r.cellNumber = c → r.currentPressNumber = 0) →
      ((l.map (fun row => if row.cellNumber = c then
          { row with currentPressNumber := p } else row)).countP
        (fun r => decide (r.currentPressNumber = q))) =
        l.countP (fun r => decide (r.currentPressNumber = q))
  | [], _ => rfl
  | r :: rest, h0 => by
    simp only [List.map_cons, List.countP_cons]
    rw [countP_press_update c p q hpq hq rest
      (fun r' hr' => h0 r' (List.mem_cons_of_mem _ hr'))]
    congr 1
    by_cases hrc : r.cellNumber = c
    · rw [if_pos hrc]
      have hz := h0 r (List.mem_cons_self _ _) hrc
      simp only [decide_eq_true_eq]
      rw [if_neg hpq, if_neg (by rw [hz]; omega)]
    · rw [if_neg hrc]

theorem countP_press_eq_column (q : ℤ) :
    ∀ (l : List CellRow), l.countP (fun r => decide (r.currentPressNumber = q)) =
      (l.map (·.currentPressNumber)).countP (fun x => decide (x = q))
  | [] => rfl
  | r :: rest => by
    simp only [List.map_cons, List.countP_cons, countP_press_eq_column q rest]

theorem press_step_ok_and_inv {link : Bool} {limit : ℕ} {pwe pal : List ℤ} {p : ℤ}
    {cells0 : List ℤ}
    (hpalpos : ∀ q ∈ pal, 0 < q)
    (st : AssignState)
    (ha : st.cells.map (·.cellNumber) = cells0)
    (hc : ∀ q ∈ pal, st.cells.countP (fun r => decide (r.currentPressNumber = q)) = 1)
    (hd : ∀ (c : ℤ) (t : ℕ × ℤ × ℤ), t ∈ st.avail → t.2.1 = c →
      ∀ r ∈ st.cells, r.cellNumber = c → r.currentPressNumber = 0)
    (hnd : (st.avail.map (·.2.1)).Nodup) :
    ∃ st', press_step link limit pwe pal p st = .ok st' ∧
      st'.cells.map (·.cellNumber) = cells0 ∧
      (∀ q ∈ pal, st'.cells.countP (fun r => decide (r.currentPressNumber = q)) = 1) ∧
      (∀ (c : ℤ) (t : ℕ × ℤ × ℤ), t ∈ st'.avail → t.2.1 = c →
        ∀ r ∈ st'.cells, r.cellNumber = c → r.currentPressNumber = 0) ∧
      (st'.avail.map (·.2.1)).Nodup := by
  simp only [press_step]
  by_cases hc1 : p ∈ pwe ∧ link = true
  · rw [if_pos hc1]
    refine ⟨_, rfl, ?_, ?_, ?_, hnd⟩
    · show (markErrorsAux st.avail p st.cells 0).map (·.cellNumber) = cells0
      rw [markErrorsAux_cellNumbers]
      exact ha
    · intro q hq
      show (markErrorsAux st.avail p st.cells 0).countP _ = 1
      rw [markErrorsAux_countP_press]
      exact hc q hq
    · intro c t ht htc r' hr' hrc
      obtain ⟨r0, hr0, hnum, hpress⟩ := markErrorsAux_mem st.avail p st.cells 0 r' hr'
      rw [hpress]
      exact hd c t ht htc r0 hr0 (by rw [← hnum]; exact hrc)
  · rw [if_neg hc1]
    by_cases hc2 : p ∈ pal
    · rw [if_pos hc2]
      obtain ⟨r0, hr0⟩ := List.length_eq_one.mp (by
        rw [← List.countP_eq_length_filter]
        exact hc p hc2)
      rw [hr0]
      by_cases he0 : r0.errorCode = 0
      · exact ⟨{ st with electrolytesUsed := st.electrolytesUsed ++ [r0.electrolytePos] },
          by simp [he0], ha, hc, hd, hnd⟩
      · exact ⟨st, by simp [he0], ha, hc, hd, hnd⟩
    · rw [if_neg hc2]
      cases hcand : st.avail.filter (fun t =>
          (!link || rackClass t.1 == PRESS_TO_RACK p) &&
          (!(decide (0 < limit) && decide (limit ≤ st.electrolytesUsed.dedup.length)) ||
            decide (t.2.2 ∈ st.electrolytesUsed))) with
      | nil =>
        exact ⟨_, rfl, ha, hc, hd, hnd⟩
      | cons t0 tail =>
        obtain ⟨r, c, e⟩ := t0
        have hmem : (r, c, e) ∈ st.avail :=
          (List.mem_filter.mp (hcand ▸ List.mem_cons_self _ _)).1
        refine ⟨_, rfl, ?_, ?_, ?_, ?_⟩
        · rw [map_cellNumber_update]
          exact ha
        · intro q hq
          rw [countP_press_update c p q (fun he => hc2 (he ▸ hq)) (hpalpos q hq)
            st.cells (fun r' hr' hrc => hd c (r, c, e) hmem rfl r' hr' hrc)]
          exact hc q hq
        · intro c' t' ht' htc' r' hr' hrc'
          obtain ⟨row, hrow, hge⟩ := List.mem_map.mp hr'
          by_cases hwc : row.cellNumber = c
          · exfalso
            have hrnum : r'.cellNumber = row.cellNumber := by
              rw [← hge]
              split <;> rfl
            have hcc : c' = c := (hrc'.symm.trans hrnum).trans hwc
            exact eraseFirstCell_ne hnd t' ht' (htc'.trans hcc)
          · have hre : r' = row := by
              rw [← hge]
              exact if_neg hwc
            rw [hre]
            exact hd c' t' (eraseFirstCell_subset ht') htc' row hrow
              (by rw [← hre]; exact hrc')
        · exact List.Nodup.sublist
            (List.Sublist.map _ (eraseFirstCell_sublist st.avail)) hnd

theorem run_presses_ok {link : Bool} {limit : ℕ} {pwe pal : List ℤ} {cells0 : List ℤ}
    (hpalpos : ∀ q ∈ pal, 0 < q) :
    ∀ (ps : List ℤ) (st : AssignState),
      st.cells.map (·.cellNumber) = cells0 →
      (∀ q ∈ pal, st.cells.countP (fun r => decide (r.currentPressNumber = q)) = 1) →
      (∀ (c : ℤ) (t : ℕ × ℤ × ℤ), t ∈ st.avail → t.2.1 = c →
        ∀ r ∈ st.cells, r.cellNumber = c → r.currentPressNumber = 0) →
      (st.avail.map (·.2.1)).Nodup →
      (run_presses link limit pwe pal ps st).isOkay = true
  | [], _, _, _, _, _ => rfl
  | p :: ps, st, ha, hc, hd, hnd => by
    unfold run_presses
    by_cases hav : st.avail.isEmpty = true
    · rw [if_pos hav]
      rfl
    · rw [if_neg hav]
      obtain ⟨st', hstep, ha', hc', hd', hnd'⟩ :=
        press_step_ok_and_inv hpalpos st ha hc hd hnd
      rw [hstep]
      exact run_presses_ok hpalpos ps st' ha' hc' hd' hnd'

/-- C5 amended: the engine's only inconsistent-state error is the
duplicate-reference one, and it never fires when every press number is
referenced by at most one cell row.  Under the data-model invariants
(unique positive cell numbers and unique positive current-press
references), every invocation completes without raising — in particular a
press whose loaded-cell field points at a cell number absent from the cell
table is treated as empty and causes no error (see the counterexample
theorem): the engine derives press occupancy from the cells' current-press
column alone and never consults the press table's loaded-cell field. -/
theorem no_error_without_duplicate_press_refs
    (cells : List CellRow) (presses : List PressRow) (link : Bool) (limit : ℕ)
    (hnd : noDupPos (cells.map (·.cellNumber)) = true)
    (href : noDupPos (cells.map (·.currentPressNumber)) = true) :
    (assign_cells_to_press cells presses link limit).isOkay = true := by
  simp only [assign_cells_to_press]
  have hpalpos : ∀ q ∈ ((cells.filter (fun r => decide (0 < r.currentPressNumber))).map
      (·.currentPressNumber)), 0 < q := by
    intro q hq
    obtain ⟨r, hrf, hre⟩ := List.mem_map.mp hq
    have := (List.mem_filter.mp hrf).2
    rw [← hre]
    exact of_decide_eq_true this
  apply run_presses_ok hpalpos [1, 2, 3, 4, 5, 6]
    { cells := cells, presses := presses, avail := availableInit cells,
      electrolytesUsed := [], plan := [] }
  · rfl
  · intro q hq
    show cells.countP (fun r => decide (r.currentPressNumber = q)) = 1
    have hq0 : 0 < q := hpalpos q hq
    obtain ⟨r, hrf, hre⟩ := List.mem_map.mp hq
    have hrc := List.mem_filter.mp hrf
    have hpos : 0 < cells.countP (fun r => decide (r.currentPressNumber = q)) := by
      rw [List.countP_pos_iff]
      exact ⟨r, hrc.1, by rw [decide_eq_true_eq]; exact hre⟩
    have hle := noDupPos_countP_le q hq0 (cells.map (·.currentPressNumber)) href
    rw [← countP_press_eq_column] at hle
    omega
  · intro c t ht htc r hr hrc
    obtain ⟨j, r'', hg, _, hn, hp0, hposn⟩ := availableAux_mem cells 0 t ht
    obtain ⟨idx, hidx⟩ := List.mem_iff_get?.mp hr
    by_cases hij : idx = j
    · rw [hij, hg] at hidx
      injection hidx with hidx
      rw [← hidx]
      exact hp0
    · exfalso
      have hga : (cells.map (·.cellNumber)).get? j = some r''.cellNumber := by
        rw [List.get?_map, hg]
        rfl
      have hgb : (cells.map (·.cellNumber)).get? idx = some r.cellNumber := by
        rw [List.get?_map, hidx]
        rfl
      exact noDupPos_spec _ hnd j idx r''.cellNumber r.cellNumber
        (fun he => hij he.symm) hga hgb hposn (by rw [hn, htc, hrc])
  · exact availableAux_numbers_nodup cells 0 hnd

/-- Witness for `no_error_without_duplicate_press_refs` at the
absent-pointer input: the run completes without raising. -/
theorem no_error_without_duplicate_press_refs_witness :
    noDupPos (c5cells.map (·.cellNumber)) = true ∧
      noDupPos (c5cells.map (·.currentPressNumber)) = true ∧
      (assign_cells_to_press c5cells c5presses false 0).isOkay = true :=
  ⟨by decide, by decide,
    no_error_without_duplicate_press_refs c5cells c5presses false 0 (by decide) (by decide)⟩

/-- Witness for `run_aborts_on_multirow_table` at a concrete three-row
table. -/
theorem run_aborts_on_multirow_table_witness :
    2 ≤ c9df3.length ∧ (run_batches c9df3 SortingMethod.m3 none).isOkay = false :=
  ⟨by decide, run_aborts_on_multirow_table c9df3 SortingMethod.m3 none (by decide)⟩
